import Mathlib

/-!
Shallow embedding of mtgtabletop.py (MTGTabletop v0.3).

Python strings are modelled as lists of characters.  Network-dependent
collaborators (card image lookup, basic land variant lookup, image
download) and the global pseudo-random generator are modelled as explicit
function parameters.  Card images are an abstract payload type; a Python
value that may be None is modelled as an Option.  A raised exception is
modelled as the error side of an Except or as the value none of an
Option, depending on whether the surrounding code distinguishes the
exception.
-/

abbrev Str := List Char

/-! ### Deck parsing: read_deck, mtgtabletop.py lines 96 to 109 -/

/-- Whitespace characters recognised by the Python str.strip method
(the ASCII subset, which covers deck list files). -/
def isPySpace (c : Char) : Bool :=
  c == ' ' || c == '\t' || c == '\n' || c == '\r' || c == '\x0b' || c == '\x0c'

/-- Python str.strip with no argument: drop whitespace at both ends. -/
def pyStrip (l : Str) : Str :=
  ((l.dropWhile isPySpace).reverse.dropWhile isPySpace).reverse

/-- Python str.startswith on a literal prefix. -/
def startswith (pre l : Str) : Bool :=
  List.isPrefixOf pre l

/-- The list comprehension and the filter in read_deck: drop comment
lines and sideboard lines (tested on the raw line), strip every
survivor, then drop blank results. -/
def keptLines (lines : List Str) : List Str :=
  ((lines.filter
      (fun l => !(startswith ("//".toList) l) && !(startswith ("SB".toList) l))).map
    pyStrip).filter (fun l => !(l.isEmpty))

/-- Python str.split with separator one space and maxsplit 1: the text
before the first space, and either the remainder after that space or
nothing when the line holds no space at all. -/
def splitOnce : Str → Str × Option Str
  | [] => ([], none)
  | c :: rest =>
    if c = ' ' then ([], some rest)
    else (c :: (splitOnce rest).1, (splitOnce rest).2)

def digitsValGo : Str → Nat → Option Nat
  | [], acc => some acc
  | c :: rest, acc =>
    if c.isDigit then digitsValGo rest (acc * 10 + (c.toNat - 48)) else none

/-- Numeric value of a nonempty all-digit string. -/
def digitsVal : Str → Option Nat
  | [] => none
  | c :: rest => digitsValGo (c :: rest) 0

/-- Model of the Python 2 int constructor applied to a string: optional
surrounding whitespace, an optional sign, then one or more ASCII
digits; anything else raises ValueError, modelled as none. -/
def pyInt (s : Str) : Option Int :=
  match pyStrip s with
  | '-' :: rest => (digitsVal rest).map (fun n => -(n : Int))
  | '+' :: rest => (digitsVal rest).map (fun n => (n : Int))
  | t => (digitsVal t).map (fun n => (n : Int))

/-- One data line of the deck list, following read_deck: split once on
a space, convert the first token with int, keep the remainder as the
card name.  A missing second token (IndexError) or a token int rejects
(ValueError) makes the whole parse fail. -/
def parseLine (l : Str) : Option (Int × Str) :=
  match splitOnce l with
  | (tok, some rest) => (pyInt tok).map (fun n => (n, rest))
  | (_, none) => none

/-- The parsing loop of read_deck: entries are accumulated line by
line and the first raising line aborts the whole parse. -/
def parseAll : List Str → Option (List (Int × Str))
  | [] => some []
  | l :: rest =>
    match parseLine l, parseAll rest with
    | some e, some es => some (e :: es)
    | _, _ => none

/-- read_deck: parse a deck file given as its list of raw lines. -/
def read_deck (lines : List Str) : Option (List (Int × Str)) :=
  parseAll (keptLines lines)

/-! ### Basic lands and image resolution: mtgtabletop.py lines 51, 52 and 117 to 148 -/

/-- is_basic_land, mtgtabletop.py lines 51 and 52: exact membership in
the five canonical basic land names. -/
def is_basic_land (card_name : Str) : Bool :=
  [("Plains".toList), ("Island".toList), ("Swamp".toList), ("Mountain".toList),
    ("Forest".toList)].contains card_name

inductive FetchErr
  | unavailable (card_name : Str)
  | emptyChoice

/-- Python random.choice: pick the element at a pseudo-random valid
index of a nonempty sequence; raise IndexError on an empty sequence.
The pseudo-random stream is the function rand sampled at counter k. -/
def choiceModel {γ : Type} (rand : Nat → Nat) (k : Nat) (pool : List γ) :
    Except FetchErr γ :=
  if h : 0 < pool.length then
    .ok (pool.get ⟨rand k % pool.length, Nat.mod_lt _ h⟩)
  else
    .error FetchErr.emptyChoice

/-- The inner loop of fetch_images for a randomised basic land entry:
one draw from the variant pool and one image fetch per physical copy
(the fetch result may be none and is appended unchecked). -/
def drawLands {α : Type} (fetchImage : Str → Option α) (rand : Nat → Nat)
    (urls : List Str) : Nat → Nat → Except FetchErr (List (Int × Option α))
  | 0, _ => .ok []
  | n + 1, k =>
    match choiceModel rand k urls with
    | .error e => .error e
    | .ok u =>
      match drawLands fetchImage rand urls n (k + 1) with
      | .error e => .error e
      | .ok rest => .ok ((1, fetchImage u) :: rest)

/-- fetch_images, mtgtabletop.py lines 126 to 148.  landUrls models
fetch_basic_land_image_urls (an absent result is modelled as the empty
pool), cardUrl models fetch_card_image_url, fetchImage models
fetch_image (none when the download or decode fails), rand models the
pseudo-random stream consumed by choice, and the counter k indexes that
stream.  A basic land entry under randomisation expands to one entry of
quantity one per copy; any other entry must resolve to an image or the
whole resolution raises UnavailableCardImageException. -/
def fetch_images {α : Type} (landUrls : Str → List Str) (cardUrl : Str → Option Str)
    (fetchImage : Str → Option α) (rand : Nat → Nat) (randomise_lands : Bool) :
    List (Int × Str) → Nat → Except FetchErr (List (Int × Option α))
  | [], _ => .ok []
  | entry :: rest, k =>
    if is_basic_land entry.2 && randomise_lands then
      match drawLands fetchImage rand (landUrls entry.2) entry.1.toNat k with
      | .error e => .error e
      | .ok drawn =>
        match fetch_images landUrls cardUrl fetchImage rand randomise_lands rest
            (k + entry.1.toNat) with
        | .error e => .error e
        | .ok others => .ok (drawn ++ others)
    else
      match (cardUrl entry.2).bind fetchImage with
      | none => .error (FetchErr.unavailable entry.2)
      | some img =>
        match fetch_images landUrls cardUrl fetchImage rand randomise_lands rest k with
        | .error e => .error e
        | .ok others => .ok ((entry.1, some img) :: others)

/-! ### Deck splitting: no_of_cards and split_deck_if_necessary, lines 151 to 167 -/

/-- no_of_cards: sum of the quantities of the entries, exactly the
accumulation loop of the source.  The image payload is abstract. -/
def no_of_cards {β : Type} (entries : List (Int × β)) : Int :=
  entries.foldl (fun count entry => count + entry.1) 0

/-- The loop of split_deck_if_necessary with its two mutable lists made
explicit: decks already emitted and the current deck under
construction. -/
def splitLoop {β : Type} : List (Int × β) → List (List (Int × β)) → List (Int × β) →
    List (List (Int × β))
  | [], decks, current_deck => decks ++ [current_deck]
  | entry :: rest, decks, current_deck =>
    if no_of_cards current_deck + entry.1 > 69 then
      splitLoop rest (decks ++ [current_deck]) [entry]
    else
      splitLoop rest decks (current_deck ++ [entry])

/-- split_deck_if_necessary, mtgtabletop.py lines 158 to 167. -/
def split_deck_if_necessary {β : Type} (entries : List (Int × β)) :
    List (List (Int × β)) :=
  splitLoop entries [] []

/-- Concatenation of the entries of all emitted sheets, in emission
order. -/
def concatSheets {β : Type} : List (List (Int × β)) → List (Int × β)
  | [] => []
  | s :: rest => s ++ concatSheets rest

/-! ### Sheet compositing: stitch_deck, mtgtabletop.py lines 170 to 221 -/

def CARDS_PER_ROW : Nat := 10

def CARDS_PER_COLUMN : Nat := 7

def CARD_WIDTH : Nat := 312

def CARD_HEIGHT : Nat := 445

/-- One paste operation on the composite image: either a card image
pasted at a pixel position, or the hidden placeholder card pasted at a
pixel position after being resized to the given dimensions. -/
inductive Op (β : Type)
  | pasteCard (img : β) (x y : Nat)
  | pasteHidden (w h x y : Nat)

/-- The inner loop of stitch_deck: paste one copy of the image of the
current entry, then update the cursor; ccc is the running
current_card_count of the source (one based), x and y the pixel
cursor. -/
def stitchCopies {β : Type} (img : β) : Nat → Nat → Nat → Nat →
    List (Op β) × Nat × Nat × Nat
  | 0, ccc, x, y => ([], ccc, x, y)
  | n + 1, ccc, x, y =>
    (Op.pasteCard img x y ::
        (stitchCopies img n (ccc + 1)
          (if ccc % CARDS_PER_ROW = 0 then 0 else x + CARD_WIDTH)
          (if ccc % CARDS_PER_ROW = 0 then y + CARD_HEIGHT else y)).1,
      (stitchCopies img n (ccc + 1)
          (if ccc % CARDS_PER_ROW = 0 then 0 else x + CARD_WIDTH)
          (if ccc % CARDS_PER_ROW = 0 then y + CARD_HEIGHT else y)).2)

/-- The outer loop of stitch_deck over the entries of one sheet. -/
def stitchEntries {β : Type} : List (Int × β) → Nat → Nat → Nat → List (Op β)
  | [], _, _, _ => []
  | entry :: rest, ccc, x, y =>
    (stitchCopies entry.2 entry.1.toNat ccc x y).1 ++
      stitchEntries rest (stitchCopies entry.2 entry.1.toNat ccc x y).2.1
        (stitchCopies entry.2 entry.1.toNat ccc x y).2.2.1
        (stitchCopies entry.2 entry.1.toNat ccc x y).2.2.2

/-- stitch_deck as the ordered list of paste operations it performs on
the fresh composite image: all card pastes of the entry loop, then the
unconditional paste of the hidden placeholder card, resized to one cell
and placed at the bottom right cell of the grid. -/
def stitch_deck {β : Type} (entries : List (Int × β)) : List (Op β) :=
  stitchEntries entries 1 0 0 ++
    [Op.pasteHidden CARD_WIDTH CARD_HEIGHT (CARD_WIDTH * (CARDS_PER_ROW - 1))
      (CARD_HEIGHT * (CARDS_PER_COLUMN - 1))]

/-- Pixel position of a paste operation. -/
def opPos {β : Type} : Op β → Nat × Nat
  | .pasteCard _ x y => (x, y)
  | .pasteHidden _ _ x y => (x, y)

/-- The operation that finally shows at a given cell position: the last
paste performed there (later pastes overwrite earlier ones). -/
def lastOpAt {β : Type} (ops : List (Op β)) (p : Nat × Nat) : Option (Op β) :=
  (ops.filter (fun o => decide (opPos o = p))).getLast?

/-- The sequence of physical card images of a sheet, each entry
expanded into quantity many copies, exactly as the nested loops of
stitch_deck enumerate them. -/
def expandEntries {β : Type} : List (Int × β) → List β
  | [] => []
  | entry :: rest => List.replicate entry.1.toNat entry.2 ++ expandEntries rest

/-- Reference placement: the card with zero-based global index c goes
to the cell in column c mod 10 and row c div 10. -/
def placeFrom {β : Type} : Nat → List β → List (Op β)
  | _, [] => []
  | c, img :: rest =>
    Op.pasteCard img ((c % 10) * CARD_WIDTH) ((c / 10) * CARD_HEIGHT) ::
      placeFrom (c + 1) rest

/-! ### Orchestrator: export_deck and the main loop, lines 224 to 265 -/

/-- Observable side effects of one run that the claims talk about: the
error message printed when a deck is skipped, and the files written. -/
inductive Event
  | errMsg (card_name : Str)
  | file (fname : Str)

/-- Python deck.split with separator one dot and maxsplit 1, first
component: the file name up to the first dot. -/
def basenameOf : Str → Str
  | [] => []
  | c :: rest => if c = '.' then [] else c :: basenameOf rest

/-- The per-sheet loop of export_deck: one output file per sheet, named
basename underscore index dot jpg, indices zero based in emission
order. -/
def exportLoop (basename : Str) : Nat → List (List (Int × Str)) → List Event
  | _, [] => []
  | i, _s :: rest =>
    Event.file (basename ++ ("_".toList) ++ (Nat.repr i).toList ++ (".jpg".toList)) ::
      exportLoop basename (i + 1) rest

/-- export_deck over an image payload: the payload type is irrelevant
to the emitted file names, so the sheets are first erased to their
shape. -/
def export_deck {β : Type} (entries : List (Int × β)) (basename : Str) : List Event :=
  exportLoop basename 0 ((split_deck_if_necessary entries).map
    (fun s => s.map (fun e => (e.1, ([] : Str)))))

/-- The main loop of mtgtabletop.py over the deck files of one run.
Each deck is parsed, resolved and exported in order.  Only
UnavailableCardImageException is caught (the deck is skipped with an
error message and the run continues); a failed parse or an IndexError
escaping random.choice aborts the whole run, so no further event is
emitted.  The pseudo-random counter is modelled per deck. -/
def main_loop {α : Type} (landUrls : Str → List Str) (cardUrl : Str → Option Str)
    (fetchImage : Str → Option α) (rand : Nat → Nat) (randomise_lands : Bool) :
    List (Str × List Str) → List Event
  | [] => []
  | deck :: rest =>
    match read_deck deck.2 with
    | none => []
    | some entries =>
      match fetch_images landUrls cardUrl fetchImage rand randomise_lands entries 0 with
      | .error (FetchErr.unavailable nm) =>
        Event.errMsg nm ::
          main_loop landUrls cardUrl fetchImage rand randomise_lands rest
      | .error FetchErr.emptyChoice => []
      | .ok resolved =>
        export_deck resolved (basenameOf deck.1) ++
          main_loop landUrls cardUrl fetchImage rand randomise_lands rest

/-! ### Lemmas about no_of_cards and the splitter loop -/

theorem foldl_count_shift {β : Type} :
    ∀ (l : List (Int × β)) (a : Int),
      l.foldl (fun count entry => count + entry.1) a = a + no_of_cards l := by
  intro l
  induction l with
  | nil => intro a; simp [no_of_cards]
  | cons e l ih =>
    intro a
    show (l.foldl (fun count entry => count + entry.1) (a + e.1)) = _
    rw [ih]
    show a + e.1 + no_of_cards l = a + no_of_cards (e :: l)
    have h2 : no_of_cards (e :: l) = (0 : Int) + e.1 + no_of_cards l := by
      show (l.foldl (fun count entry => count + entry.1) ((0 : Int) + e.1)) = _
      rw [ih]
    rw [h2]
    ring

theorem no_of_cards_nil {β : Type} : no_of_cards ([] : List (Int × β)) = 0 := rfl

theorem no_of_cards_append_single {β : Type} (l : List (Int × β)) (e : Int × β) :
    no_of_cards (l ++ [e]) = no_of_cards l + e.1 := by
  show (l ++ [e]).foldl (fun count entry => count + entry.1) 0 = _
  rw [List.foldl_append]
  show [e].foldl (fun count entry => count + entry.1) (no_of_cards l) = _
  rw [foldl_count_shift]
  have h1 : no_of_cards [e] = e.1 := by
    show (0 : Int) + e.1 = e.1
    ring
  rw [h1]

theorem no_of_cards_single {β : Type} (e : Int × β) : no_of_cards [e] = e.1 := by
  show (0 : Int) + e.1 = e.1
  ring

theorem splitLoop_sheets_ok {β : Type} :
    ∀ (entries : List (Int × β)) (decks : List (List (Int × β)))
      (current_deck : List (Int × β)),
      (∀ s ∈ decks, no_of_cards s ≤ 69 ∨ ∃ e, s = [e] ∧ 69 < e.1) →
      (no_of_cards current_deck ≤ 69 ∨ ∃ e, current_deck = [e] ∧ 69 < e.1) →
      ∀ s ∈ splitLoop entries decks current_deck,
        no_of_cards s ≤ 69 ∨ ∃ e, s = [e] ∧ 69 < e.1 := by
  intro entries
  induction entries with
  | nil =>
    intro decks current_deck hdecks hcur s hs
    rw [splitLoop] at hs
    rcases List.mem_append.1 hs with h | h
    · exact hdecks s h
    · rw [List.mem_singleton] at h
      rw [h]
      exact hcur
  | cons entry rest ih =>
    intro decks current_deck hdecks hcur s hs
    rw [splitLoop] at hs
    by_cases hbr : no_of_cards current_deck + entry.1 > 69
    · rw [if_pos hbr] at hs
      refine ih (decks ++ [current_deck]) [entry] ?_ ?_ s hs
      · intro t ht
        rcases List.mem_append.1 ht with h | h
        · exact hdecks t h
        · rw [List.mem_singleton] at h
          rw [h]
          exact hcur
      · by_cases he : entry.1 ≤ 69
        · left
          rw [no_of_cards_single]
          exact he
        · right
          exact ⟨entry, rfl, by omega⟩
    · rw [if_neg hbr] at hs
      refine ih decks (current_deck ++ [entry]) hdecks ?_ s hs
      left
      rw [no_of_cards_append_single]
      omega

theorem splitLoop_concat {β : Type} :
    ∀ (entries : List (Int × β)) (decks : List (List (Int × β)))
      (current_deck : List (Int × β)),
      concatSheets (splitLoop entries decks current_deck) =
        concatSheets decks ++ current_deck ++ entries := by
  intro entries
  induction entries with
  | nil =>
    intro decks current_deck
    rw [splitLoop]
    induction decks with
    | nil => simp [concatSheets]
    | cons d ds ihd =>
      show concatSheets (d :: (ds ++ [current_deck])) = _
      rw [concatSheets, ihd]
      simp [concatSheets, List.append_assoc]
  | cons entry rest ih =>
    intro decks current_deck
    rw [splitLoop]
    by_cases hbr : no_of_cards current_deck + entry.1 > 69
    · rw [if_pos hbr, ih]
      have hd : ∀ ds : List (List (Int × β)),
          concatSheets (ds ++ [current_deck]) = concatSheets ds ++ current_deck := by
        intro ds
        induction ds with
        | nil => simp [concatSheets]
        | cons d ds ihd =>
          show concatSheets (d :: (ds ++ [current_deck])) = _
          rw [concatSheets, ihd]
          simp [concatSheets, List.append_assoc]
      rw [hd]
      simp [List.append_assoc]
    · rw [if_neg hbr, ih]
      simp [List.append_assoc]

theorem splitLoop_decks_prefix {β : Type} :
    ∀ (entries : List (Int × β)) (d d2 : List (List (Int × β)))
      (current_deck : List (Int × β)),
      splitLoop entries (d ++ d2) current_deck = d ++ splitLoop entries d2 current_deck := by
  intro entries
  induction entries with
  | nil =>
    intro d d2 current_deck
    rw [splitLoop, splitLoop, List.append_assoc]
  | cons entry rest ih =>
    intro d d2 current_deck
    rw [splitLoop, splitLoop]
    by_cases hbr : no_of_cards current_deck + entry.1 > 69
    · rw [if_pos hbr, if_pos hbr, List.append_assoc, ih]
    · rw [if_neg hbr, if_neg hbr, ih]

/-! ### Claims about the deck splitter -/

/-- C1: for every input whose quantities are all positive, every sheet
emitted by split_deck_if_necessary either has a total quantity of at
most 69 or is a singleton sheet whose single entry has quantity above
69 (the accepted oversized edge case). -/
theorem claim_C1_split_capacity {β : Type} (entries : List (Int × β))
    (hpos : ∀ e ∈ entries, 0 < e.1) :
    ∀ s ∈ split_deck_if_necessary entries,
      no_of_cards s ≤ 69 ∨ ∃ e, s = [e] ∧ 69 < e.1 := by
  refine splitLoop_sheets_ok entries [] [] ?_ ?_
  · intro s hs
    simp at hs
  · left
    rw [no_of_cards_nil]
    omega

/-- Witness for C1: in the concrete deck of three entries below, the
emitted sheet holding the oversized entry satisfies the stated
disjunction. -/
theorem claim_C1_split_capacity_witness :
    no_of_cards [((70 : Int), (1 : Nat))] ≤ 69 ∨
      ∃ e, [((70 : Int), (1 : Nat))] = [e] ∧ 69 < e.1 :=
  claim_C1_split_capacity [((4 : Int), (0 : Nat)), (70, 1), (60, 2)] (by decide)
    [((70 : Int), (1 : Nat))] (by decide)

/-- C2: concatenating the entries of all sheets emitted by
split_deck_if_necessary, in emission order, yields exactly the input
entry sequence, and the total quantity is therefore preserved. -/
theorem claim_C2_split_concat {β : Type} (entries : List (Int × β)) :
    concatSheets (split_deck_if_necessary entries) = entries ∧
      no_of_cards (concatSheets (split_deck_if_necessary entries)) =
        no_of_cards entries := by
  have h : concatSheets (split_deck_if_necessary entries) = entries := by
    show concatSheets (splitLoop entries [] []) = entries
    rw [splitLoop_concat]
    simp [concatSheets]
  exact ⟨h, by rw [h]⟩

/-- C9: when the first entry has quantity above the capacity 69 (all
quantities positive), split_deck_if_necessary first closes the still
empty current sheet, so the first emitted sheet is empty. -/
theorem claim_C9_empty_first_sheet {β : Type} (q : Int) (b : β)
    (rest : List (Int × β)) (hq : 69 < q) (hpos : ∀ e ∈ rest, 0 < e.1) :
    (split_deck_if_necessary ((q, b) :: rest)).head? = some [] := by
  show (splitLoop ((q, b) :: rest) [] []).head? = some []
  rw [splitLoop]
  have hbr : no_of_cards ([] : List (Int × β)) + ((q, b) : Int × β).1 > 69 := by
    rw [no_of_cards_nil]
    show (0 : Int) + q > 69
    omega
  rw [if_pos hbr]
  have hpre : splitLoop rest ([[]] ++ []) [(q, b)] =
      [[]] ++ splitLoop rest [] [(q, b)] :=
    splitLoop_decks_prefix rest [[]] [] [(q, b)]
  have hnil : ([] : List (List (Int × β))) ++ [[]] = [[]] ++ [] := by simp
  rw [hnil, hpre]
  rfl

/-- Witness for C9 at a concrete deck whose first entry has quantity
70. -/
theorem claim_C9_empty_first_sheet_witness :
    (split_deck_if_necessary [((70 : Int), (5 : Nat)), (3, 9)]).head? = some [] :=
  claim_C9_empty_first_sheet 70 5 [(3, 9)] (by decide) (by decide)

/-! ### Lemmas about the sheet compositor -/

theorem stitchCopies_spec {β : Type} (img : β) :
    ∀ (n c x y : Nat), x = (c % 10) * CARD_WIDTH → y = (c / 10) * CARD_HEIGHT →
      stitchCopies img n (c + 1) x y =
        (placeFrom c (List.replicate n img), c + n + 1,
          ((c + n) % 10) * CARD_WIDTH, ((c + n) / 10) * CARD_HEIGHT) := by
  intro n
  induction n with
  | zero =>
    intro c x y hx hy
    rw [hx, hy]
    simp [stitchCopies, placeFrom]
  | succ n ih =>
    intro c x y hx hy
    have hx2 : (if (c + 1) % CARDS_PER_ROW = 0 then 0 else x + CARD_WIDTH) =
        ((c + 1) % 10) * CARD_WIDTH := by
      rw [hx]
      show (if (c + 1) % 10 = 0 then 0 else (c % 10) * 312 + 312) = ((c + 1) % 10) * 312
      split_ifs with h
      · omega
      · omega
    have hy2 : (if (c + 1) % CARDS_PER_ROW = 0 then y + CARD_HEIGHT else y) =
        ((c + 1) / 10) * CARD_HEIGHT := by
      rw [hy]
      show (if (c + 1) % 10 = 0 then (c / 10) * 445 + 445 else (c / 10) * 445) =
        ((c + 1) / 10) * 445
      split_ifs with h
      · omega
      · omega
    rw [stitchCopies, hx2, hy2]
    rw [ih (c + 1) (((c + 1) % 10) * CARD_WIDTH) (((c + 1) / 10) * CARD_HEIGHT) rfl rfl]
    rw [List.replicate_succ, placeFrom, hx, hy]
    refine congrArg₂ Prod.mk rfl (congrArg₂ Prod.mk (by omega) ?_)
    refine congrArg₂ Prod.mk ?_ ?_
    · have : c + 1 + n = c + (n + 1) := by omega
      rw [this]
    · have : c + 1 + n = c + (n + 1) := by omega
      rw [this]

theorem placeFrom_append {β : Type} :
    ∀ (l1 l2 : List β) (c : Nat),
      placeFrom c (l1 ++ l2) = placeFrom c l1 ++ placeFrom (c + l1.length) l2 := by
  intro l1
  induction l1 with
  | nil => intro l2 c; simp [placeFrom]
  | cons a l1 ih =>
    intro l2 c
    show placeFrom c (a :: (l1 ++ l2)) = _
    rw [placeFrom, placeFrom, ih]
    have : c + 1 + l1.length = c + (a :: l1).length := by
      simp
      omega
    rw [this]
    rfl

theorem stitchEntries_spec {β : Type} :
    ∀ (entries : List (Int × β)) (c x y : Nat),
      x = (c % 10) * CARD_WIDTH → y = (c / 10) * CARD_HEIGHT →
      stitchEntries entries (c + 1) x y = placeFrom c (expandEntries entries) := by
  intro entries
  induction entries with
  | nil => intro c x y hx hy; simp [stitchEntries, expandEntries, placeFrom]
  | cons entry rest ih =>
    intro c x y hx hy
    rw [stitchEntries, stitchCopies_spec entry.2 entry.1.toNat c x y hx hy]
    rw [expandEntries, placeFrom_append]
    rw [List.length_replicate]
    exact congrArg _ (ih (c + entry.1.toNat) _ _ rfl rfl)

theorem placeFrom_length {β : Type} :
    ∀ (l : List β) (c : Nat), (placeFrom c l).length = l.length := by
  intro l
  induction l with
  | nil => intro c; rfl
  | cons a l ih =>
    intro c
    show (placeFrom c (a :: l)).length = l.length + 1
    rw [placeFrom]
    show (placeFrom (c + 1) l).length + 1 = l.length + 1
    rw [ih]

theorem placeFrom_get? {β : Type} :
    ∀ (l : List β) (c i : Nat),
      (placeFrom c l).get? i =
        (l.get? i).map
          (fun img => Op.pasteCard img (((c + i) % 10) * CARD_WIDTH)
            (((c + i) / 10) * CARD_HEIGHT)) := by
  intro l
  induction l with
  | nil => intro c i; simp [placeFrom]
  | cons a l ih =>
    intro c i
    match i with
    | 0 =>
      simp [placeFrom]
    | i + 1 =>
      rw [placeFrom]
      show (placeFrom (c + 1) l).get? i = _
      rw [ih (c + 1) i]
      have : c + 1 + i = c + (i + 1) := by omega
      rw [this]
      rfl

/-! ### Claims about the sheet compositor -/

/-- C3: for every sheet, empty or not, the operation that finally shows
at the bottom right grid cell, at pixel position with x equal to 9
times 312 and y equal to 6 times 445, is the hidden placeholder card
resized to exactly one cell of 312 by 445 pixels, because stitch_deck
pastes it unconditionally after all card placements. -/
theorem claim_C3_last_cell_placeholder {β : Type} (entries : List (Int × β)) :
    lastOpAt (stitch_deck entries)
        (CARD_WIDTH * (CARDS_PER_ROW - 1), CARD_HEIGHT * (CARDS_PER_COLUMN - 1)) =
      some (Op.pasteHidden CARD_WIDTH CARD_HEIGHT (CARD_WIDTH * (CARDS_PER_ROW - 1))
        (CARD_HEIGHT * (CARDS_PER_COLUMN - 1))) := by
  rw [lastOpAt, stitch_deck, List.filter_append]
  have hfil : List.filter
      (fun o => decide (opPos o =
        (CARD_WIDTH * (CARDS_PER_ROW - 1), CARD_HEIGHT * (CARDS_PER_COLUMN - 1))))
      [Op.pasteHidden (β := β) CARD_WIDTH CARD_HEIGHT (CARD_WIDTH * (CARDS_PER_ROW - 1))
        (CARD_HEIGHT * (CARDS_PER_COLUMN - 1))] =
      [Op.pasteHidden CARD_WIDTH CARD_HEIGHT (CARD_WIDTH * (CARDS_PER_ROW - 1))
        (CARD_HEIGHT * (CARDS_PER_COLUMN - 1))] := by
    simp [opPos]
  rw [hfil, List.getLast?_append_cons]
  rfl

/-- C4: for every sheet whose total quantity is at most 69, the card
pastes of stitch_deck are exactly the physical cards of the sheet in
row major order: they are as many as the expanded copies, and the paste
with zero-based global index i places the i-th physical card at pixel
position with x equal to i mod 10 times 312 and y equal to i div 10
times 445. -/
theorem claim_C4_row_major {β : Type} (entries : List (Int × β))
    (hcap : no_of_cards entries ≤ 69) :
    (stitchEntries entries 1 0 0).length = (expandEntries entries).length ∧
      ∀ i, i < (expandEntries entries).length →
        (stitch_deck entries).get? i =
          ((expandEntries entries).get? i).map
            (fun img => Op.pasteCard img ((i % 10) * CARD_WIDTH)
              ((i / 10) * CARD_HEIGHT)) := by
  have hmain : stitchEntries entries 1 0 0 = placeFrom 0 (expandEntries entries) :=
    stitchEntries_spec entries 0 0 0 (by simp) (by simp)
  constructor
  · rw [hmain, placeFrom_length]
  · intro i hi
    rw [stitch_deck]
    rw [List.get?_append]
    · rw [hmain, placeFrom_get? (expandEntries entries) 0 i]
      have : (0 : Nat) + i = i := by omega
      rw [this]
    · rw [hmain, placeFrom_length]
      exact hi

/-- Witness for C4 at a concrete sheet with one entry of quantity two. -/
theorem claim_C4_row_major_witness :
    (stitchEntries [((2 : Int), (5 : Nat))] 1 0 0).length =
        (expandEntries [((2 : Int), (5 : Nat))]).length ∧
      ∀ i, i < (expandEntries [((2 : Int), (5 : Nat))]).length →
        (stitch_deck [((2 : Int), (5 : Nat))]).get? i =
          ((expandEntries [((2 : Int), (5 : Nat))]).get? i).map
            (fun img => Op.pasteCard img ((i % 10) * CARD_WIDTH)
              ((i / 10) * CARD_HEIGHT)) :=
  claim_C4_row_major [((2 : Int), (5 : Nat))] (by decide)

/-! ### Lemmas about the parsing loop -/

theorem parseAll_none_iff :
    ∀ ls : List Str, parseAll ls = none ↔ ∃ l ∈ ls, parseLine l = none := by
  intro ls
  induction ls with
  | nil => simp [parseAll]
  | cons l rest ih =>
    constructor
    · intro h
      cases hl : parseLine l with
      | none => exact ⟨l, List.mem_cons_self l rest, hl⟩
      | some e =>
        cases hr : parseAll rest with
        | none =>
          rcases ih.1 hr with ⟨t, ht, hpt⟩
          exact ⟨t, List.mem_cons_of_mem l ht, hpt⟩
        | some es =>
          rw [parseAll, hl, hr] at h
          exact Option.noConfusion h
    · rintro ⟨t, ht, hpt⟩
      rcases List.mem_cons.1 ht with heq | hmem
      · rw [heq] at hpt
        rw [parseAll, hpt]
      · have hr : parseAll rest = none := ih.2 ⟨t, hmem, hpt⟩
        rw [parseAll, hr]
        cases hl2 : parseLine l <;> rfl

theorem parseAll_some_forall2 :
    ∀ (ls : List Str) (es : List (Int × Str)), parseAll ls = some es →
      List.Forall₂ (fun l e => parseLine l = some e) ls es := by
  intro ls
  induction ls with
  | nil =>
    intro es h
    rw [parseAll] at h
    cases h
    exact List.Forall₂.nil
  | cons l rest ih =>
    intro es h
    rw [parseAll] at h
    cases hl : parseLine l with
    | none =>
      rw [hl] at h
      exact Option.noConfusion h
    | some e =>
      cases hr : parseAll rest with
      | none =>
        rw [hl, hr] at h
        exact Option.noConfusion h
      | some es2 =>
        rw [hl, hr] at h
        injection h with h2
        rw [← h2]
        exact List.Forall₂.cons hl (ih es2 hr)

/-! ### Claims about the parser -/

/-- C5 counterexample: the line with quantity token 0 does not make
read_deck fail; it parses to an entry of quantity 0, so the claim that
a zero or negative quantity raises a parse error, and that every
produced entry has positive quantity, is false on the code. -/
theorem claim_C5_counterexample :
    read_deck [("0 Plains".toList)] = some [((0 : Int), ("Plains".toList))] ∧
      ¬ ((0 : Int) > 0) := by
  constructor
  · rfl
  · decide

/-- C5 amended: read_deck fails exactly when some retained line either
has no second token or has a first token that the int constructor
rejects; a sign is accepted, so quantities of zero or negative value
parse successfully, and on success the entries correspond one to one,
in order, to the retained lines. -/
theorem claim_C5_amended_parse (lines : List Str) :
    (read_deck lines = none ↔ ∃ l ∈ keptLines lines, parseLine l = none) ∧
      ∀ es, read_deck lines = some es →
        List.Forall₂ (fun l e => parseLine l = some e) (keptLines lines) es := by
  constructor
  · exact parseAll_none_iff (keptLines lines)
  · intro es h
    exact parseAll_some_forall2 (keptLines lines) es h

/-- Witness for C5 amended at a concrete file of one comment line and
one data line. -/
theorem claim_C5_amended_parse_witness :
    List.Forall₂ (fun l e => parseLine l = some e)
      (keptLines [("// comment".toList), ("3 Plains".toList)])
      [((3 : Int), ("Plains".toList))] :=
  (claim_C5_amended_parse [("// comment".toList), ("3 Plains".toList)]).2
    [((3 : Int), ("Plains".toList))] rfl

/-! ### Lemmas about land randomisation -/

theorem drawLands_ok {α : Type} (fetchImage : Str → Option α) (rand : Nat → Nat)
    (urls : List Str) (hpool : 0 < urls.length) :
    ∀ (n k : Nat), ∃ drawn, drawLands fetchImage rand urls n k = .ok drawn ∧
      drawn.length = n ∧ ∀ x ∈ drawn, x.1 = 1 ∧ ∃ u ∈ urls, x.2 = fetchImage u := by
  intro n
  induction n with
  | zero =>
    intro k
    exact ⟨[], rfl, rfl, by simp⟩
  | succ n ih =>
    intro k
    rcases ih (k + 1) with ⟨rest, hrest, hlen, hall⟩
    have hch : choiceModel rand k urls =
        .ok (urls.get ⟨rand k % urls.length, Nat.mod_lt _ hpool⟩) := by
      rw [choiceModel, dif_pos hpool]
    refine ⟨(1, fetchImage (urls.get ⟨rand k % urls.length, Nat.mod_lt _ hpool⟩)) :: rest,
      ?_, ?_, ?_⟩
    · rw [drawLands, hch, hrest]
    · simp [hlen]
    · intro x hx
      rcases List.mem_cons.1 hx with h | h
      · rw [h]
        exact ⟨rfl, urls.get _, List.get_mem urls _ _, rfl⟩
      · exact hall x h

/-! ### Claims about image resolution -/

/-- C6: with randomisation enabled, a basic land entry of quantity n
above zero whose variant pool is nonempty is replaced by exactly n
resolved entries of quantity one, each image obtained by fetching some
member of the pool (duplicates allowed), and resolution then continues
with the remaining entries at the advanced random counter. -/
theorem claim_C6_land_randomisation {α : Type} (landUrls : Str → List Str)
    (cardUrl : Str → Option Str) (fetchImage : Str → Option α) (rand : Nat → Nat)
    (name : Str) (n : Int) (rest : List (Int × Str)) (k : Nat)
    (l : List (Int × Option α))
    (hland : is_basic_land name = true)
    (hpool : 0 < (landUrls name).length)
    (hn : 0 < n)
    (hok : fetch_images landUrls cardUrl fetchImage rand true ((n, name) :: rest) k =
      .ok l) :
    ∃ drawn others, l = drawn ++ others ∧ drawn.length = n.toNat ∧
      (∀ x ∈ drawn, x.1 = 1 ∧ ∃ u ∈ landUrls name, x.2 = fetchImage u) ∧
      fetch_images landUrls cardUrl fetchImage rand true rest (k + n.toNat) =
        .ok others := by
  rcases drawLands_ok fetchImage rand (landUrls name) hpool n.toNat k with
    ⟨drawn, hdrawn, hlen, hall⟩
  simp only [fetch_images, hland, Bool.true_and, Bool.and_true, if_true, hdrawn] at hok
  cases hrest : fetch_images landUrls cardUrl fetchImage rand true rest (k + n.toNat) with
  | error e =>
    rw [hrest] at hok
    exact Except.noConfusion hok
  | ok others =>
    rw [hrest] at hok
    injection hok with h2
    exact ⟨drawn, others, h2.symm, hlen, hall, rfl⟩

/-- Witness for C6 at a concrete pool of one variant and quantity
two. -/
theorem claim_C6_land_randomisation_witness :
    ∃ drawn others,
      ([((1 : Int), some (7 : Nat)), (1, some 7)] : List (Int × Option Nat)) =
          drawn ++ others ∧
        drawn.length = 2 ∧
        (∀ x ∈ drawn, x.1 = 1 ∧ ∃ u ∈ [("u".toList)], x.2 = some 7) ∧
        fetch_images (fun _ => [("u".toList)]) (fun _ => none)
            (fun _ => some (7 : Nat)) (fun _ => 0) true [] 2 = .ok others :=
  claim_C6_land_randomisation (fun _ => [("u".toList)]) (fun _ => none)
    (fun _ => some (7 : Nat)) (fun _ => 0) ("Plains".toList) 2 [] 0
    [((1 : Int), some (7 : Nat)), (1, some 7)] rfl (by decide) (by decide) rfl

/-- C7 counterexample: with randomisation enabled and an empty variant
pool for a basic land of quantity one, resolution reaches the draw and
fails with the IndexError of random.choice on an empty sequence, so the
draw is not guarded against an empty pool. -/
theorem claim_C7_counterexample :
    fetch_images (fun _ => ([] : List Str)) (fun _ => none)
        (fun _ => (none : Option Nat)) (fun _ => 0) true
        [((1 : Int), ("Plains".toList))] 0 = .error FetchErr.emptyChoice := rfl

/-- C7 amended: there is no guard; with randomisation enabled, a basic
land entry of positive quantity whose variant lookup yields the empty
pool makes resolution invoke the draw on that empty pool, which raises
the IndexError of random.choice and aborts the whole resolution. -/
theorem claim_C7_amended_empty_pool {α : Type} (landUrls : Str → List Str)
    (cardUrl : Str → Option Str) (fetchImage : Str → Option α) (rand : Nat → Nat)
    (name : Str) (n : Int) (rest : List (Int × Str)) (k : Nat)
    (hland : is_basic_land name = true)
    (hempty : landUrls name = [])
    (hn : 0 < n) :
    fetch_images landUrls cardUrl fetchImage rand true ((n, name) :: rest) k =
      .error FetchErr.emptyChoice := by
  obtain ⟨m, hm⟩ : ∃ m, n.toNat = m + 1 := ⟨n.toNat - 1, by omega⟩
  have hch : choiceModel (γ := Str) rand k [] = .error FetchErr.emptyChoice := rfl
  have hdl : drawLands fetchImage rand [] (m + 1) k = .error FetchErr.emptyChoice := by
    rw [drawLands, hch]
  simp [fetch_images, hland, hempty, hm, hdl]

/-- Witness for C7 amended at quantity two on a different basic land. -/
theorem claim_C7_amended_empty_pool_witness :
    fetch_images (fun _ => ([] : List Str)) (fun _ => none)
        (fun _ => (none : Option Nat)) (fun _ => 1) true
        [((2 : Int), ("Island".toList))] 5 = .error FetchErr.emptyChoice :=
  claim_C7_amended_empty_pool (fun _ => []) (fun _ => none) (fun _ => none)
    (fun _ => 1) ("Island".toList) 2 [] 5 rfl rfl (by decide)

/-- C10: with randomisation enabled and a nonempty variant pool, a
basic land entry whose every image fetch fails does not raise
UnavailableCardImageException: each copy is appended as a resolved
entry of quantity one with an absent image, and resolution succeeds. -/
theorem claim_C10_land_fetch_none {α : Type} (landUrls : Str → List Str)
    (cardUrl : Str → Option Str) (fetchImage : Str → Option α) (rand : Nat → Nat)
    (name : Str) (n : Int) (k : Nat)
    (hland : is_basic_land name = true)
    (hpool : 0 < (landUrls name).length)
    (hfail : ∀ u, fetchImage u = none) :
    fetch_images landUrls cardUrl fetchImage rand true [(n, name)] k =
      .ok (List.replicate n.toNat ((1 : Int), (none : Option α))) := by
  have hdl : ∀ (m j : Nat), drawLands fetchImage rand (landUrls name) m j =
      .ok (List.replicate m ((1 : Int), (none : Option α))) := by
    intro m
    induction m with
    | zero => intro j; rfl
    | succ m ih =>
      intro j
      have hch : choiceModel rand j (landUrls name) =
          .ok ((landUrls name).get
            ⟨rand j % (landUrls name).length, Nat.mod_lt _ hpool⟩) := by
        rw [choiceModel, dif_pos hpool]
      rw [drawLands, hch, ih (j + 1)]
      simp [hfail, List.replicate_succ]
  simp [fetch_images, hland, hdl n.toNat k]

/-- Witness for C10 at quantity three with a one element pool. -/
theorem claim_C10_land_fetch_none_witness :
    fetch_images (fun _ => [("u".toList)]) (fun _ => none)
        (fun _ => (none : Option Nat)) (fun _ => 0) true
        [((3 : Int), ("Forest".toList))] 0 =
      .ok (List.replicate 3 ((1 : Int), (none : Option Nat))) :=
  claim_C10_land_fetch_none (fun _ => [("u".toList)]) (fun _ => none)
    (fun _ => none) (fun _ => 0) ("Forest".toList) 3 0 rfl (by decide) (fun _ => rfl)

/-! ### Claim about the orchestrator -/

/-- C8: when image resolution of a deck raises
UnavailableCardImageException, the main loop prints the error, that
deck yields no output file, and every later deck of the run is
processed exactly as it would have been on its own. -/
theorem claim_C8_deck_isolation {α : Type} (landUrls : Str → List Str)
    (cardUrl : Str → Option Str) (fetchImage : Str → Option α) (rand : Nat → Nat)
    (randomise_lands : Bool) (deckName : Str) (lines : List Str)
    (entries : List (Int × Str)) (nm : Str) (rest : List (Str × List Str))
    (hread : read_deck lines = some entries)
    (hfetch : fetch_images landUrls cardUrl fetchImage rand randomise_lands entries 0 =
      .error (FetchErr.unavailable nm)) :
    main_loop landUrls cardUrl fetchImage rand randomise_lands
        ((deckName, lines) :: rest) =
      Event.errMsg nm ::
        main_loop landUrls cardUrl fetchImage rand randomise_lands rest := by
  simp [main_loop, hread, hfetch]

/-- Witness for C8: the first deck has an unresolvable card, the second
deck is still exported. -/
theorem claim_C8_deck_isolation_witness :
    main_loop (fun _ => ([] : List Str)) (fun _ => none)
        (fun _ => (none : Option Nat)) (fun _ => 0) false
        [(("deck1.dec".toList), [("1 Foo".toList)]),
          (("d2.dec".toList), [("// only a comment".toList)])] =
      Event.errMsg ("Foo".toList) ::
        main_loop (fun _ => ([] : List Str)) (fun _ => none)
          (fun _ => (none : Option Nat)) (fun _ => 0) false
          [(("d2.dec".toList), [("// only a comment".toList)])] :=
  claim_C8_deck_isolation (fun _ => []) (fun _ => none) (fun _ => none) (fun _ => 0)
    false ("deck1.dec".toList) [("1 Foo".toList)] [((1 : Int), ("Foo".toList))]
    ("Foo".toList) [(("d2.dec".toList), [("// only a comment".toList)])] rfl rfl
